import Mathlib

/-
Verification of the point-group assigner in pymatgen/symmetry/pointgroup.py.

Shallow embedding conventions:
* Machine floats are modelled as exact rationals.
* A SymmOp is its 4x4 affine matrix (`Mat4`), as in the source where
  composition is `np.dot(op1.affine_matrix, op2.affine_matrix)` and
  application is the affine action on a 3-vector.
* Fallible Python code is modelled with `Except PyErr`; reading an unbound
  local name is `PyErr.nameError`, `max()`/`min()` of an empty sequence is
  `PyErr.valueError`, and the explicit `RuntimeError` raise in
  `cluster_sites` is `PyErr.runtimeError`.
* External collaborators that are not part of this repository
  (numpy/scipy utilities, `SymmOp` constructors, `find_in_coord_list`)
  are modelled from the spec where needed; each such definition carries a
  doc comment saying so.
-/

attribute [local semireducible] Rat.add Rat.mul Rat.sub Rat.inv

set_option maxRecDepth 4000

/-- Error kinds a run of the analyzer can raise. -/
inductive PyErr where
  | nameError
  | valueError
  | runtimeError
  deriving DecidableEq, Repr

deriving instance DecidableEq for Except

/-- Tests whether an `Except` value is an error. -/
def isErr {α : Type} : Except PyErr α → Bool
  | Except.error _ => true
  | Except.ok _ => false

/-- Cartesian 3-vector with exact rational coordinates. -/
structure Vec3 where
  x : ℚ
  y : ℚ
  z : ℚ
  deriving DecidableEq, Repr

/-- Componentwise difference of two vectors, `s1.coords - s2.coords`. -/
def vsub (a b : Vec3) : Vec3 := ⟨a.x - b.x, a.y - b.y, a.z - b.z⟩

/-- Dot product, `np.dot`. -/
def dot (a b : Vec3) : ℚ := a.x * b.x + a.y * b.y + a.z * b.z

/-- Cross product, `np.cross`. -/
def cross (a b : Vec3) : Vec3 :=
  ⟨a.y * b.z - a.z * b.y, a.z * b.x - a.x * b.z, a.x * b.y - a.y * b.x⟩

/-- Squared Euclidean norm.  Square roots leave the rationals, so every
norm comparison in the source is modelled through its square. -/
def normSq (a : Vec3) : ℚ := a.x ^ 2 + a.y ^ 2 + a.z ^ 2

/-- Exact model of `np.linalg.norm v < t`: false for negative `t`, else
compare squares. -/
def normLtB (v : Vec3) (t : ℚ) : Bool := decide (0 ≤ t) && decide (normSq v < t ^ 2)

/-- Exact model of `np.linalg.norm v > t`: true for negative `t`, else
compare squares. -/
def normGtB (v : Vec3) (t : ℚ) : Bool := decide (t < 0) || decide (t ^ 2 < normSq v)

/-- Chebyshev (max-component) distance between two points; used to state
the separation hypotheses under which tolerance matching is unambiguous. -/
def chebDist (a b : Vec3) : ℚ := max |a.x - b.x| (max |a.y - b.y| |a.z - b.z|)

/-- A site of a molecule: species (atomic number), atomic mass, and
Cartesian coordinates. -/
structure Site where
  specie : ℕ
  mass : ℚ
  coords : Vec3
  deriving DecidableEq, Repr

/-- A symmetry operation, identified with its 4x4 affine matrix
(`SymmOp.affine_matrix`). -/
abbrev Mat4 := Matrix (Fin 4) (Fin 4) ℚ

/-- The identity operator `SymmOp(np.eye(4))`. -/
def identity4 : Mat4 := !![1,0,0,0; 0,1,0,0; 0,0,1,0; 0,0,0,1]

/-- Applies an affine operator to a point: rotation block times the vector
plus the translation column (`symmop.operate(coords)`). -/
def operate (op : Mat4) (v : Vec3) : Vec3 :=
  ⟨op 0 0 * v.x + op 0 1 * v.y + op 0 2 * v.z + op 0 3,
   op 1 0 * v.x + op 1 1 * v.y + op 1 2 * v.z + op 1 3,
   op 2 0 * v.x + op 2 1 * v.y + op 2 2 * v.z + op 2 3⟩

/-- Model of `np.allclose(o, m, atol=tol)` with the numpy default relative
tolerance `rtol = 1e-5`: every entry satisfies
`|o i j - m i j| <= tol + 1e-5 * |m i j|`. -/
def allclose4 (a b : Mat4) (tol : ℚ) : Bool :=
  decide (∀ i j, |a i j - b i j| ≤ tol + (1 / 100000) * |b i j|)

/-- The helper `in_set` of `generate_full_symmops`: does some operator of
the list match `m` within tolerance. -/
def in_set (ops : List Mat4) (m : Mat4) (tol : ℚ) : Bool :=
  ops.any fun o => allclose4 o m tol

/-- All ordered pairwise products, in the order produced by
`itertools.product(symmops, symmops)` with `np.dot(op1, op2)`. -/
def pairProducts (ops : List Mat4) : List Mat4 :=
  ops.flatMap fun a => ops.map fun b => a * b

/-- One scan of `generate_full_symmops`: the first pairwise product that
matches no existing operator within tolerance (the loop breaks at the
first such product), or `none` when the set is complete. -/
def closure_step (ops : List Mat4) (tol : ℚ) : Option Mat4 :=
  (pairProducts ops).find? fun m => !(in_set ops m tol)

/-- Fuel-indexed body of `generate_full_symmops`.  The Python function
recurses after appending a single new operator and stops once the length
exceeds 200, so along any real call chain the fuel `201` of
`generate_full_symmops` never runs out (each recursion needs the new
length to be at most 200 and grows the list by one); the fuel-zero branch
is unreachable from that entry point. -/
def gen_aux (tol : ℚ) : ℕ → List Mat4 → List Mat4
  | 0, ops => ops
  | n + 1, ops =>
    match closure_step ops tol with
    | none => ops
    | some m =>
      let new_set := ops ++ [m]
      if 200 < new_set.length then new_set
      else gen_aux tol n new_set

/-- Model of `generate_full_symmops`: repeatedly append the first missing
pairwise product, restarting the scan after each addition; stop when a
full pass finds nothing new, or right after the set size exceeds 200. -/
def generate_full_symmops (ops : List Mat4) (tol : ℚ) : List Mat4 :=
  gen_aux tol 201 ops

/-- A point group: Schoenflies symbol plus the closure of the supplied
operations (`PointGroup.__init__`). -/
structure PointGroup where
  sch_symbol : String
  ops : List Mat4

/-- Builds a `PointGroup` from a generating set, closing it with
`generate_full_symmops` as the constructor does. -/
def PointGroup.make (sch_symbol : String) (operations : List Mat4) (tol : ℚ) : PointGroup :=
  ⟨sch_symbol, generate_full_symmops operations tol⟩

/-- The four shape buckets of `_analyze`. -/
inductive TopShape where
  | linear
  | sphTop
  | asymTop
  | symTop
  deriving DecidableEq, Repr

/-- Line 121: `abs(v1 * v2 * v3) < self.eig_tol ** 3`. -/
def eig_zero (v1 v2 v3 eps : ℚ) : Prop := |v1 * v2 * v3| < eps ^ 3

/-- Lines 122-123: `abs(v1 - v2) < tol and abs(v1 - v3) < tol`. -/
def eig_all_same (v1 v2 v3 eps : ℚ) : Prop := |v1 - v2| < eps ∧ |v1 - v3| < eps

/-- Lines 124-125, exactly as written in the source: the test
`abs(v1 - v2) > self.eig_tol` appears twice and `abs(v1 - v3)` is never
compared. -/
def eig_all_diff (v1 v2 v3 eps : ℚ) : Prop :=
  |v1 - v2| > eps ∧ |v1 - v2| > eps ∧ |v2 - v3| > eps

instance (v1 v2 v3 eps : ℚ) : Decidable (eig_zero v1 v2 v3 eps) := by
  unfold eig_zero; infer_instance

instance (v1 v2 v3 eps : ℚ) : Decidable (eig_all_same v1 v2 v3 eps) := by
  unfold eig_all_same; infer_instance

instance (v1 v2 v3 eps : ℚ) : Decidable (eig_all_diff v1 v2 v3 eps) := by
  unfold eig_all_diff; infer_instance

/-- Dispatch of `_analyze` (lines 141-152) on the eigenvalues of the
normalized inertia tensor: linear, spherical top, asymmetric top, and the
fall-through symmetric-top branch. -/
def shape_dispatch (v1 v2 v3 eps : ℚ) : TopShape :=
  if eig_zero v1 v2 v3 eps then TopShape.linear
  else if eig_all_same v1 v2 v3 eps then TopShape.sphTop
  else if eig_all_diff v1 v2 v3 eps then TopShape.asymTop
  else TopShape.symTop

/-- Sum of a list of rationals. -/
def sumQ (l : List ℚ) : ℚ := l.foldr (· + ·) 0

/-- The inertia tensor accumulated in `_analyze` lines 97-110. -/
def inertia_tensor (mol : List Site) : Matrix (Fin 3) (Fin 3) ℚ :=
  !![sumQ (mol.map fun s => s.mass * (s.coords.y ^ 2 + s.coords.z ^ 2)),
     sumQ (mol.map fun s => -(s.mass * s.coords.x * s.coords.y)),
     sumQ (mol.map fun s => -(s.mass * s.coords.x * s.coords.z));
     sumQ (mol.map fun s => -(s.mass * s.coords.x * s.coords.y)),
     sumQ (mol.map fun s => s.mass * (s.coords.x ^ 2 + s.coords.z ^ 2)),
     sumQ (mol.map fun s => -(s.mass * s.coords.y * s.coords.z));
     sumQ (mol.map fun s => -(s.mass * s.coords.x * s.coords.z)),
     sumQ (mol.map fun s => -(s.mass * s.coords.y * s.coords.z)),
     sumQ (mol.map fun s => s.mass * (s.coords.x ^ 2 + s.coords.y ^ 2))]

/-- The accumulated `total_inertia` of `_analyze` line 111. -/
def total_inertia (mol : List Site) : ℚ :=
  sumQ (mol.map fun s => s.mass * (s.coords.x ^ 2 + s.coords.y ^ 2 + s.coords.z ^ 2))

/-- Model of `_analyze` lines 93-152.  The locals `inertia_tensor` and
`total_inertia` are assigned only inside the `else` branch (lines 97-111),
but the normalization `inertia_tensor /= total_inertia` at line 116 is
indented outside that branch and always executes; for a molecule of
exactly one atom it therefore reads unbound locals and the method dies
with an UnboundLocalError (a NameError) even though line 95 already set
`sch_symbol = "Kh"`.  The eigensolver `np.linalg.eig` is an external
collaborator, so the eigenvalue triple it returns is a parameter. -/
def analyze (mol : List Site) (eig : ℚ × ℚ × ℚ) (eps : ℚ) :
    Except PyErr (Matrix (Fin 3) (Fin 3) ℚ × TopShape) :=
  if mol.length = 1 then Except.error PyErr.nameError
  else
    Except.ok ((inertia_tensor mol).map (· / total_inertia mol),
      shape_dispatch eig.1 eig.2.1 eig.2.2 eps)

/-- The loop of `_proc_sym_top` lines 190-194: scan the index pairs
`(0,1), (0,2), (1,2)` in order and, at the first pair of eigenvalues
strictly closer than the tolerance, record the remaining index as the
unique axis; if no pair passes, the local `unique_axis` is never
assigned (`none`). -/
def unique_axis_index (v1 v2 v3 eps : ℚ) : Option (Fin 3) :=
  if |v1 - v2| < eps then some 2
  else if |v1 - v3| < eps then some 1
  else if |v2 - v3| < eps then some 0
  else none

/-- Picks the element with maximal rotation order, first among ties, as
Python `max(rot_sym, key=lambda v: v[1])` does; `none` on the empty list
(`max()` raises ValueError there). -/
def max_by_order (l : List (Vec3 × ℕ)) : Option (Vec3 × ℕ) :=
  match l with
  | [] => none
  | a :: rest => some (rest.foldl (fun best c => if best.2 < c.2 then c else best) a)

/-- Branch outcomes of `_proc_sph_top`. -/
inductive SphBranch where
  | fallbackSymTop
  | tFamily
  | oFamily
  | iFamily
  | noBranch
  deriving DecidableEq, Repr

/-- Model of `_proc_sph_top` lines 365-391 after `_find_spherical_axes`
has produced `rot_sym`: line 366 runs `max` over `rot_sym` before the
`len(rot_sym) == 0` test, so the empty case raises ValueError; otherwise
dispatch on the highest order (orders of 6 or more fall through every
branch, `noBranch`). -/
def proc_sph_top_branch (rot_sym : List (Vec3 × ℕ)) : Except PyErr SphBranch :=
  match max_by_order rot_sym with
  | none => Except.error PyErr.valueError
  | some mr =>
    if rot_sym.length = 0 ∨ mr.2 < 3 then Except.ok SphBranch.fallbackSymTop
    else if mr.2 = 3 then Except.ok SphBranch.tFamily
    else if mr.2 = 4 then Except.ok SphBranch.oFamily
    else if mr.2 = 5 then Except.ok SphBranch.iFamily
    else Except.ok SphBranch.noBranch

/-- Whether the coordinate at index `i` matches the target `c` within the
absolute per-component tolerance. -/
def coordHit (coords : List Vec3) (c : Vec3) (atol : ℚ) (i : ℕ) : Bool :=
  match coords[i]? with
  | some p => decide (|p.x - c.x| < atol) && decide (|p.y - c.y| < atol)
      && decide (|p.z - c.z| < atol)
  | none => false

/-- Modelled from the spec: `find_in_coord_list` lives in
`pymatgen.util.coord_utils`, outside this repository.  Per the spec the
transformed point "matches (within an absolute coordinate tolerance ...)
exactly one existing atom"; the utility returns the indices of all
coordinates whose every component differs from the target by strictly
less than the absolute tolerance. -/
def find_in_coord_list (coords : List Vec3) (c : Vec3) (atol : ℚ) : List ℕ :=
  (List.range coords.length).filter (coordHit coords c atol)

/-- Model of `is_valid_op`: the operation is valid when every atom is
mapped to the position of exactly one atom of the same species, within
the absolute distance tolerance. -/
def is_valid_op (symmop : Mat4) (mol : List Site) (tol : ℚ) : Bool :=
  let coords := mol.map (·.coords)
  mol.all fun site =>
    match find_in_coord_list coords (operate symmop site.coords) tol with
    | [i] =>
      match mol[i]? with
      | some s2 => s2.specie == site.specie
      | none => false
    | _ => false

/-- The index mapping a valid operation induces: atom `i` goes to the
index of the unique atom matched by its transformed coordinate, `none`
when the match is not unique. -/
def mapped_index (symmop : Mat4) (mol : List Site) (tol : ℚ) (i : ℕ) : Option ℕ :=
  match mol[i]? with
  | some s =>
    match find_in_coord_list (mol.map (·.coords)) (operate symmop s.coords) tol with
    | [j] => some j
    | _ => none
  | none => none

/-- Distance-from-origin data handed to the clustering, one value per
site: `dists = [[np.linalg.norm(site.coords), 0] for site in mol]` (the
dummy second coordinate contributes nothing to euclidean distances).
`normF` models `np.linalg.norm`, an external numeric primitive whose
output is irrational in general; concrete theorems pin it down by also
checking `(normF v)^2 = normSq v` on every site involved. -/
def distList (normF : Vec3 → ℚ) (mol : List Site) : List ℚ :=
  mol.map fun s => normF s.coords

/-- One growth step of threshold-graph reachability over the 1-D distance
values: adjoin every value within `t` of the current set. -/
def growStep (ds : List ℚ) (t : ℚ) (cur : List ℚ) : List ℚ :=
  cur ++ ds.filter fun d =>
    (!(cur.any fun c => decide (c = d))) && (cur.any fun c => decide (|c - d| ≤ t))

/-- Iterated growth; `ds.length` rounds reach the whole connected
component. -/
def reachSet (ds : List ℚ) (t : ℚ) : ℕ → List ℚ → List ℚ
  | 0, cur => cur
  | n + 1, cur => reachSet ds t n (growStep ds t cur)

/-- Modelled from the spec: `scipy.cluster.hierarchy.fclusterdata` with
criterion distance and the default single linkage assigns two
observations to one flat cluster exactly when their cophenetic distance
is at most `t`, i.e. when they are connected in the graph whose edges
join distance values at most `t` apart (the spec: "distance-based
hierarchical clustering over the 1D distance values with the same numeric
tolerance").  `connectedB` decides that reachability. -/
def connectedB (ds : List ℚ) (t x y : ℚ) : Bool :=
  (reachSet ds t ds.length [x]).any fun c => decide (c = y)

/-- The sites of the flat cluster containing `s`. -/
def clusterMembers (normF : Vec3 → ℚ) (mol : List Site) (t : ℚ) (s : Site) : List Site :=
  mol.filter fun s2 => connectedB (distList normF mol) t (normF s.coords) (normF s2.coords)

/-- The distance values of the flat cluster containing `s`, with
multiplicity. -/
def clusterDistVals (normF : Vec3 → ℚ) (mol : List Site) (t : ℚ) (s : Site) : List ℚ :=
  (distList normF mol).filter fun d => connectedB (distList normF mol) t (normF s.coords) d

/-- The value stored in `avg_dist` for the cluster of `s`: the source
appends the whole `[distance, 0]` row of `dists` for every member (line
493) and takes `np.mean(val)`, and numpy averages over the FLATTENED
array, so the stored value is the sum of the distances divided by twice
the row count - half the mean distance from the origin. -/
def clusterAvg (normF : Vec3 → ℚ) (mol : List Site) (t : ℚ) (s : Site) : ℚ :=
  sumQ (clusterDistVals normF mol t s) / (2 * ((clusterDistVals normF mol t s).length : ℚ))

/-- First-occurrence representative of every flat cluster: the sites not
connected to any earlier site.  (Distinct flat clusters always have
distinct average distances - consecutive clusters are separated by more
than `t` - so the dictionary keyed on averages in the source keeps them
apart and iterating representatives is faithful.) -/
def clusterReps (normF : Vec3 → ℚ) (mol : List Site) (t : ℚ) : List Site :=
  ((mol.enum).filter fun p =>
    (mol.take p.1).all fun s2 =>
      !(connectedB (distList normF mol) t (normF s2.coords) (normF p.2.coords))).map (·.2)

/-- Insert a natural number into a sorted list without duplicating it. -/
def insertSortedNat (a : ℕ) : List ℕ → List ℕ
  | [] => [a]
  | b :: rest =>
    if a < b then a :: b :: rest
    else if a = b then b :: rest
    else b :: insertSortedNat a rest

/-- The distinct species of a cluster in ascending order, modelling
`sorted(sites, key=lambda s: s.specie)` before the groupby. -/
def sortedSpecies (sites : List Site) : List ℕ :=
  (sites.map (·.specie)).foldr insertSortedNat []

/-- `itertools.groupby` of a distance-`d` cluster after sorting by
species: one `((d, sp), sites)` entry per species. -/
def groupBySpecie (d : ℚ) (sites : List Site) : List ((ℚ × ℕ) × List Site) :=
  (sortedSpecies sites).map fun sp => ((d, sp), sites.filter fun s => decide (s.specie = sp))

/-- The loop of `cluster_sites` over the flat clusters: a cluster whose
stored `np.mean` value (half its mean distance from the origin, see
`clusterAvg`) is below tolerance is the origin cluster - more than one
site there raises RuntimeError ("Bad molecule with more than one atom at
origin!"), one site becomes `origin_site`; every other cluster is sorted
and grouped by species into `dist_el_sites`. -/
def clusterLoop (normF : Vec3 → ℚ) (mol : List Site) (t : ℚ) :
    List Site → Except PyErr (Option Site × List ((ℚ × ℕ) × List Site))
  | [] => Except.ok (none, [])
  | r :: rest =>
    let sites := clusterMembers normF mol t r
    let d := clusterAvg normF mol t r
    if d < t then
      if 1 < sites.length then Except.error PyErr.runtimeError
      else
        match clusterLoop normF mol t rest with
        | Except.error e => Except.error e
        | Except.ok (o, groups) =>
          Except.ok ((match sites[0]? with | some s => some s | none => o), groups)
    else
      match clusterLoop normF mol t rest with
      | Except.error e => Except.error e
      | Except.ok (o, groups) => Except.ok (o, groupBySpecie d sites ++ groups)

/-- Model of `cluster_sites`: cluster the sites by distance from origin,
detect the origin atom, and group the remaining shells by (distance,
species). -/
def cluster_sites (normF : Vec3 → ℚ) (mol : List Site) (t : ℚ) :
    Except PyErr (Option Site × List ((ℚ × ℕ) × List Site)) :=
  clusterLoop normF mol t (clusterReps normF mol t)

/-- The `not_on_axis` predicate of `_get_smallest_set_not_on_axis`:
`np.linalg.norm(np.cross(site.coords, axis)) > self.tol`. -/
def not_on_axis (axis : Vec3) (t : ℚ) (s : Site) : Bool :=
  normGtB (cross s.coords axis) t

/-- Python `min(valid_sets, key=len)`: first list of minimal length;
ValueError on an empty collection. -/
def minByLen (l : List (List Site)) : Except PyErr (List Site) :=
  match l with
  | [] => Except.error PyErr.valueError
  | s :: rest =>
    Except.ok (rest.foldl (fun best c => if c.length < best.length then c else best) s)

/-- Model of `_get_smallest_set_not_on_axis`: cluster the molecule, drop
the atoms lying on the axis from every (distance, species) class, keep
the non-empty classes and return the smallest. -/
def get_smallest_set_not_on_axis (normF : Vec3 → ℚ) (mol : List Site) (axis : Vec3)
    (t : ℚ) : Except PyErr (List Site) :=
  match cluster_sites normF mol t with
  | Except.error e => Except.error e
  | Except.ok (_, groups) =>
    minByLen (((groups.map (·.2)).map (List.filter (not_on_axis axis t))).filter
      fun vs => 0 < vs.length)

/-- The countdown loop of `_check_rot_sym`: try orders `i` from `m` down
to 1, skip the non-divisors of `m`, and return the first order whose
rotation operator is valid; after a full fall-through return 1.  `rotOp
axis i` models the external constructor
`SymmOp.from_origin_axis_angle((0,0,0), axis, 360 / i)`. -/
def rot_sym_search (rotOp : Vec3 → ℕ → Mat4) (mol : List Site) (axis : Vec3) (t : ℚ)
    (m : ℕ) : ℕ → ℕ
  | 0 => 1
  | i + 1 =>
    if (decide (m % (i + 1) = 0)) && is_valid_op (rotOp axis (i + 1)) mol t then i + 1
    else rot_sym_search rotOp mol axis t m i

/-- Model of `_check_rot_sym`: the order search over the smallest
species-equivalence class not lying on the axis. -/
def check_rot_sym (rotOp : Vec3 → ℕ → Mat4) (normF : Vec3 → ℚ) (mol : List Site)
    (axis : Vec3) (t : ℚ) : Except PyErr ℕ :=
  match get_smallest_set_not_on_axis normF mol axis t with
  | Except.error e => Except.error e
  | Except.ok minSet => Except.ok (rot_sym_search rotOp mol axis t minSet.length minSet.length)

/-- Modelled from the spec: `SymmOp.reflection(normal)` with the default
origin is the Householder reflection `I - 2 n nT / |n|^2`, embedded as a
4x4 affine matrix with zero translation (the operator constructors are an
external collaborator per the spec). -/
def reflectionOp (n : Vec3) : Mat4 :=
  let d := normSq n
  !![1 - 2*n.x*n.x/d, -(2*n.x*n.y/d), -(2*n.x*n.z/d), 0;
     -(2*n.y*n.x/d), 1 - 2*n.y*n.y/d, -(2*n.y*n.z/d), 0;
     -(2*n.z*n.x/d), -(2*n.z*n.y/d), 1 - 2*n.z*n.z/d, 0;
     0, 0, 0, 1]

/-- All unordered pairs in the order of `itertools.combinations(mol, 2)`. -/
def combPairs {α : Type} : List α → List (α × α)
  | [] => []
  | a :: rest => (rest.map fun b => (a, b)) ++ combPairs rest

/-- The candidate filter of the `_find_mirror` pair scan exactly as in
line 281-285 of the source: same species, the SIGNED dot product of the
coordinate difference with the axis below tolerance, and the reflection
about that difference valid. -/
def mirrorPairHit (mol : List Site) (axis : Vec3) (t : ℚ) (p : Site × Site) : Bool :=
  (p.1.specie == p.2.specie)
    && decide (dot (vsub p.1.coords p.2.coords) axis < t)
    && is_valid_op (reflectionOp (vsub p.1.coords p.2.coords)) mol t

/-- Model of `_find_mirror`: first test the axis itself as a mirror
normal ("h"); otherwise scan atom pairs for the first valid candidate and
classify it "d" or "v" from the recorded rotation axes; empty string when
nothing is found. -/
def find_mirror (mol : List Site) (axis : Vec3) (rot_sym : List (Vec3 × ℕ)) (t : ℚ) :
    String :=
  if is_valid_op (reflectionOp axis) mol t then "h"
  else
    match (combPairs mol).find? (mirrorPairHit mol axis t) with
    | some p =>
      let normal := vsub p.1.coords p.2.coords
      if 1 < rot_sym.length then
        if rot_sym.any fun vr => (!(normLtB (vsub vr.1 axis) t)) && decide (dot vr.1 normal < t)
        then "v" else "d"
      else "v"
    | none => ""

/-- The pair-scan condition as the claim words it, with the magnitude of
the projection instead of the signed value of the source; kept separately so
the two scans can be compared. -/
def mirrorPairHitAbs (mol : List Site) (axis : Vec3) (t : ℚ) (p : Site × Site) : Bool :=
  (p.1.specie == p.2.specie)
    && decide (|dot (vsub p.1.coords p.2.coords) axis| < t)
    && is_valid_op (reflectionOp (vsub p.1.coords p.2.coords)) mol t

/-- The mirror search as the claim describes it: identical to
`find_mirror` except that the pair scan tests the magnitude of the
projection. -/
def find_mirror_absproj (mol : List Site) (axis : Vec3) (rot_sym : List (Vec3 × ℕ))
    (t : ℚ) : String :=
  if is_valid_op (reflectionOp axis) mol t then "h"
  else
    match (combPairs mol).find? (mirrorPairHitAbs mol axis t) with
    | some p =>
      let normal := vsub p.1.coords p.2.coords
      if 1 < rot_sym.length then
        if rot_sym.any fun vr => (!(normLtB (vsub vr.1 axis) t)) && decide (dot vr.1 normal < t)
        then "v" else "d"
      else "v"
    | none => ""

/-- Pairwise separation hypothesis: every two distinct atoms differ by at
least `2 t` in Chebyshev distance, so a point can lie within the
tolerance box of at most one atom. -/
def separatedB (mol : List Site) (t : ℚ) : Bool :=
  (List.range mol.length).all fun i => (List.range mol.length).all fun j =>
    decide (i = j) ||
      match mol[i]?, mol[j]? with
      | some s1, some s2 => decide (2 * t ≤ chebDist s1.coords s2.coords)
      | _, _ => true

/-- Rotation about the z axis by 90 degrees as a 4x4 affine matrix
(cosine 0, sine 1). -/
def R90z4 : Mat4 := !![0,-1,0,0; 1,0,0,0; 0,0,1,0; 0,0,0,1]

/-- Rotation about the z axis by 180 degrees as a 4x4 affine matrix. -/
def R180z4 : Mat4 := !![-1,0,0,0; 0,-1,0,0; 0,0,1,0; 0,0,0,1]

/-- Modelled from the spec: the rotation constructor
`SymmOp.from_origin_axis_angle((0,0,0), axis, 360 / i)` is an external
collaborator.  This instance gives the exact matrices about the `+z` axis
for the orders exercised by the concrete molecules here: order 4 is the
90-degree turn, order 2 the 180-degree turn, and order 1 a full turn,
i.e. the identity (the remaining orders are never evaluated because the
search only tests divisors of the candidate set size). -/
def rotZ (_axis : Vec3) (i : ℕ) : Mat4 :=
  if i = 4 then R90z4 else if i = 2 then R180z4 else identity4

/-- Modelled from the spec: `np.linalg.norm` (the distance from the
origin) is an external numeric primitive.  This instance is exact on
every concrete site used below - all of them lie on a coordinate axis or
on the radius-5 circle - and each theorem that uses it also checks the
defining property `(normFromOrigin v)^2 = normSq v` on its sites. -/
def normFromOrigin (v : Vec3) : ℚ :=
  if normSq v = 25 then 5 else |v.x| + |v.y| + |v.z|

/-- A single helium atom at the origin, the smallest molecule. -/
def siteHe : Site := ⟨2, 4, ⟨0, 0, 0⟩⟩

/-- Two same-species atoms on the x axis at distances 0.1 and 0.35 from
the origin: only the first lies within the default tolerance 0.3 of the
origin, but single-linkage chaining puts both in one cluster whose
stored `np.mean` over the `[distance, 0]` rows is 0.1125 < 0.3 (mean
distance 0.225). -/
def mol6 : List Site := [⟨1, 1, ⟨1/10, 0, 0⟩⟩, ⟨1, 1, ⟨7/20, 0, 0⟩⟩]

/-- The unit z axis. -/
def zAxis : Vec3 := ⟨0, 0, 1⟩

/-- Four same-species atoms at distance 5 from the origin forming a C2
pattern about the z axis, with the two atoms of each antipodal pair only
1 apart componentwise: at a loose tolerance every 180-degree image
matches two atoms at once. -/
def mol4 : List Site :=
  [⟨1, 1, ⟨3, 4, 0⟩⟩, ⟨1, 1, ⟨4, 3, 0⟩⟩, ⟨1, 1, ⟨-3, -4, 0⟩⟩, ⟨1, 1, ⟨-4, -3, 0⟩⟩]

/-- A symmetric same-species diatomic along the z axis. -/
def mol7 : List Site := [⟨1, 1, ⟨0, 0, -1⟩⟩, ⟨1, 1, ⟨0, 0, 1⟩⟩]

/-- A reference axis that is the normal of no valid mirror of `mol7` and
makes a large negative dot product with the pair difference. -/
def a7 : Vec3 := ⟨1, 0, 1⟩

/-- Five same-species atoms for which the 90-degree rotation about z is a
valid operation whose induced index mapping is not injective: the two
close atoms at the bottom are both carried into the tolerance box of the
single atom on the x axis. -/
def mol8 : List Site :=
  [⟨1, 1, ⟨29/100, -10, 0⟩⟩, ⟨1, 1, ⟨-29/100, -10, 0⟩⟩, ⟨1, 1, ⟨10, 0, 0⟩⟩,
   ⟨1, 1, ⟨0, 10, 0⟩⟩, ⟨1, 1, ⟨-10, -29/100, 0⟩⟩]

/-- The degenerate affine operator `diag(1, 1, 0, 1)`: projection onto
the z = 0 plane.  A legitimate 4x4 affine transform (the data model of a
SymmetryOperation), idempotent under composition. -/
def projZ4 : Mat4 := !![1,0,0,0; 0,1,0,0; 0,0,0,0; 0,0,0,1]

/-- A list with no duplicates that contains `j` and nothing else equals
`[j]`. -/
theorem nodup_eq_singleton {α : Type} {l : List α} {j : α} (hn : l.Nodup) (hj : j ∈ l)
    (hall : ∀ x ∈ l, x = j) : l = [j] := by
  match l with
  | [] => cases hj
  | [a] => rw [hall a (by simp)]
  | a :: b :: rest =>
    exfalso
    rw [List.nodup_cons] at hn
    have ha := hall a (by simp)
    have hb := hall b (by simp)
    exact hn.1 (by rw [ha, hb]; exact List.mem_cons_self _ _)

/-- Characterization of a filtered index range collapsing to a single
index. -/
theorem filter_range_singleton {p : ℕ → Bool} {n j : ℕ} :
    (List.range n).filter p = [j] ↔
      j < n ∧ p j = true ∧ ∀ k, k < n → k ≠ j → p k = false := by
  constructor
  · intro h
    have hj : j ∈ (List.range n).filter p := by rw [h]; simp
    rw [List.mem_filter, List.mem_range] at hj
    refine ⟨hj.1, hj.2, fun k hk hkj => ?_⟩
    by_contra hpk
    rw [Bool.not_eq_false] at hpk
    have hmem : k ∈ (List.range n).filter p := by
      rw [List.mem_filter, List.mem_range]; exact ⟨hk, hpk⟩
    rw [h, List.mem_singleton] at hmem
    exact hkj hmem
  · rintro ⟨hj, hpj, hk⟩
    refine nodup_eq_singleton (List.Nodup.filter _ (List.nodup_range n)) ?_ ?_
    · rw [List.mem_filter, List.mem_range]; exact ⟨hj, hpj⟩
    · intro x hx
      rw [List.mem_filter, List.mem_range] at hx
      by_contra hxj
      rw [hk x hx.1 hxj] at hx
      exact Bool.false_ne_true hx.2

/-- Membership in the pairwise-product list. -/
theorem mem_pairProducts {ops : List Mat4} {m : Mat4} :
    m ∈ pairProducts ops ↔ ∃ a ∈ ops, ∃ b ∈ ops, a * b = m := by
  simp [pairProducts]

/-- The scan finds nothing exactly when every pairwise product already
matches a member within tolerance. -/
theorem closure_step_none_iff {ops : List Mat4} {tol : ℚ} :
    closure_step ops tol = none ↔
      ∀ a ∈ ops, ∀ b ∈ ops, in_set ops (a * b) tol = true := by
  rw [closure_step, List.find?_eq_none]
  constructor
  · intro h a ha b hb
    have := h (a * b) (mem_pairProducts.mpr ⟨a, ha, b, hb, rfl⟩)
    simpa using this
  · intro h m hm
    obtain ⟨a, ha, b, hb, rfl⟩ := mem_pairProducts.mp hm
    simp [h a ha b hb]

/-- An operator always matches itself when the tolerance is nonnegative. -/
theorem allclose4_self {a : Mat4} {tol : ℚ} (h : 0 ≤ tol) : allclose4 a a tol = true := by
  simp only [allclose4, decide_eq_true_eq]
  intro i j
  have h2 : (0 : ℚ) ≤ 1 / 100000 * |a i j| := mul_nonneg (by norm_num) (abs_nonneg _)
  simp only [sub_self, abs_zero]
  linarith

/-- Once a scan finds nothing new, any amount of fuel returns the set
unchanged. -/
theorem gen_aux_stall {ops : List Mat4} {tol : ℚ} (h : closure_step ops tol = none) :
    ∀ n, gen_aux tol n ops = ops := by
  intro n
  cases n with
  | zero => rfl
  | succ n => simp [gen_aux, h]

/-- Every generator survives into the closure. -/
theorem gen_aux_subset (tol : ℚ) :
    ∀ (n : ℕ) (ops : List Mat4), ∀ g ∈ ops, g ∈ gen_aux tol n ops := by
  intro n
  induction n with
  | zero => intro ops g hg; simpa [gen_aux] using hg
  | succ n ih =>
    intro ops g hg
    cases hstep : closure_step ops tol with
    | none => simpa [gen_aux, hstep] using hg
    | some m =>
      simp only [gen_aux, hstep]
      split
      · exact List.mem_append_left _ hg
      · exact ih (ops ++ [m]) g (List.mem_append_left _ hg)

/-- With enough fuel, a closure that stops under the ceiling stops
because the scan is complete. -/
theorem gen_aux_complete (tol : ℚ) :
    ∀ (n : ℕ) (ops : List Mat4), 201 ≤ n + ops.length →
      (gen_aux tol n ops).length ≤ 200 → closure_step (gen_aux tol n ops) tol = none := by
  intro n
  induction n with
  | zero =>
    intro ops hn hlen
    simp only [gen_aux] at hlen
    exact absurd hlen (by omega)
  | succ n ih =>
    intro ops hn hlen
    cases hstep : closure_step ops tol with
    | none => simp [gen_aux, hstep]
    | some m =>
      simp only [gen_aux, hstep] at hlen ⊢
      by_cases hc : 200 < (ops ++ [m]).length
      · simp only [if_pos hc] at hlen
        exact absurd hlen (not_le.mpr hc)
      · simp only [if_neg hc] at hlen ⊢
        refine ih (ops ++ [m]) ?_ hlen
        have : (ops ++ [m]).length = ops.length + 1 := by simp
        omega

/-- The closure of a starting set of at most 200 operators never exceeds
201 operators. -/
theorem gen_aux_len (tol : ℚ) :
    ∀ (n : ℕ) (ops : List Mat4), ops.length ≤ 200 → (gen_aux tol n ops).length ≤ 201 := by
  intro n
  induction n with
  | zero => intro ops h; simp only [gen_aux]; omega
  | succ n ih =>
    intro ops h
    cases hstep : closure_step ops tol with
    | none => simp only [gen_aux, hstep]; omega
    | some m =>
      simp only [gen_aux, hstep]
      have hlen : (ops ++ [m]).length = ops.length + 1 := by simp
      by_cases hc : 200 < (ops ++ [m]).length
      · simp only [if_pos hc]; omega
      · simp only [if_neg hc]
        exact ih (ops ++ [m]) (by omega)

/-- C4 counterexample.  Fed the empty generating set - a set of symmetry
operations whose closure (also empty) stays far below the ceiling -
`generate_full_symmops` returns the empty sequence, which contains no
operator within tolerance of the identity; fed the single idempotent
affine operator `diag(1,1,0,1)` it returns that singleton, again with no
operator within tolerance of the identity.  The claim that every
non-truncated closure contains the identity is therefore false. -/
theorem C4_counterexample :
    (generate_full_symmops ([] : List Mat4) (1/10) = []) ∧
    (¬ ∃ m ∈ generate_full_symmops [projZ4] (1/10), allclose4 m identity4 (1/10) = true) := by
  constructor
  · decide
  · decide

/-- C4, amended.  For every generating set and nonnegative tolerance, if
the returned sequence is not ceiling-truncated (at most 200 operators)
then it contains every generator, it is closed under composition - the
product of any two members matches some member within tolerance - and,
whenever the generating set contains the identity operator (as every set
the analyzer builds does, being seeded with `identity_op`), it contains
an operator equal within tolerance to the identity matrix. -/
theorem C4_closure_invariants (ops : List Mat4) (tol : ℚ) (htol : 0 ≤ tol)
    (hlen : (generate_full_symmops ops tol).length ≤ 200) :
    (∀ g ∈ ops, g ∈ generate_full_symmops ops tol) ∧
    (∀ a ∈ generate_full_symmops ops tol, ∀ b ∈ generate_full_symmops ops tol,
      in_set (generate_full_symmops ops tol) (a * b) tol = true) ∧
    (identity4 ∈ ops →
      ∃ m ∈ generate_full_symmops ops tol, allclose4 m identity4 tol = true) := by
  refine ⟨gen_aux_subset tol 201 ops, ?_, ?_⟩
  · exact closure_step_none_iff.mp (gen_aux_complete tol 201 ops (by omega) hlen)
  · intro hid
    exact ⟨identity4, gen_aux_subset tol 201 ops identity4 hid, allclose4_self htol⟩

/-- C4 witness: the closure of the singleton identity generating set
contains the identity and is closed under composition at that pair. -/
theorem C4_closure_invariants_witness :
    identity4 ∈ generate_full_symmops [identity4] (1/10) ∧
    in_set (generate_full_symmops [identity4] (1/10)) (identity4 * identity4) (1/10)
      = true := by
  have h := C4_closure_invariants [identity4] (1/10) (by norm_num) (by decide)
  have hmem : identity4 ∈ generate_full_symmops [identity4] (1/10) :=
    h.1 identity4 (by simp)
  exact ⟨hmem, h.2.1 identity4 hmem identity4 hmem⟩

/-- C5 counterexample.  The procedure is a no-op on an already-complete
input, so feeding it 202 copies of the identity returns a list of 202
operators: the returned list can have more than 201 elements when the
initial set does. -/
theorem C5_counterexample :
    201 < (generate_full_symmops (List.replicate 202 identity4) (1/10)).length := by
  have hstep : closure_step (List.replicate 202 identity4) (1/10) = none := by
    rw [closure_step, List.find?_eq_none]
    intro m hm
    obtain ⟨a, ha, b, hb, rfl⟩ := mem_pairProducts.mp hm
    rw [List.eq_of_mem_replicate ha, List.eq_of_mem_replicate hb]
    have hin : in_set (List.replicate 202 identity4) (identity4 * identity4) (1/10)
        = true := by
      rw [in_set, List.any_eq_true]
      refine ⟨identity4, List.mem_replicate.mpr ⟨by norm_num, rfl⟩, by decide⟩
    simp only [hin]
    decide
  rw [generate_full_symmops, gen_aux_stall hstep]
  simp

/-- C5, amended.  The procedure terminates on every input, stopping when
a full pass finds no new operator or right after the set size exceeds
200, and each pass appends at most one operator; hence whenever the
initial set has at most 200 operators - as every generating set produced
by the analyzer does - the returned list has at most 201 elements. -/
theorem C5_length_bound (ops : List Mat4) (tol : ℚ) (h : ops.length ≤ 200) :
    (generate_full_symmops ops tol).length ≤ 201 :=
  gen_aux_len tol 201 ops h

/-- C5 witness at the singleton identity generating set. -/
theorem C5_length_bound_witness :
    (generate_full_symmops [identity4] (1/10)).length ≤ 201 :=
  C5_length_bound [identity4] (1/10) (by decide)

/-- C1.  A molecule of exactly one atom does not complete the analysis:
line 95 assigns the symbol "Kh", but the unconditional normalization at
line 116 then reads the locals `inertia_tensor` and `total_inertia`,
which are bound only in the multi-atom branch, and the method dies with
an UnboundLocalError.  The claim that the analysis completes without
error for single-atom molecules is refuted by evaluating the model. -/
theorem C1_single_atom_crash (s : Site) (eig : ℚ × ℚ × ℚ) (eps : ℚ) :
    analyze [s] eig eps = Except.error PyErr.nameError := rfl

/-- C2.  The asymmetric-top dispatch does not require all three pairwise
eigenvalue gaps to exceed the tolerance: with eigenvalues
(0.66, 0.676, 0.664) and tolerance 0.01 the code branches to the
asymmetric-top procedure although the first and third eigenvalues differ
by only 0.004, because line 124-125 tests `abs(v1 - v2)` twice and never
`abs(v1 - v3)`. -/
theorem C2_asym_dispatch_gap :
    shape_dispatch (33/50) (169/250) (83/125) (1/100) = TopShape.asymTop ∧
    ¬(|(33 : ℚ)/50 - 83/125| > 1/100) := by
  constructor
  · decide
  · decide

/-- C3.  When the spherical axis search records no rotation axis at all,
`_proc_sph_top` does not fall back to the symmetric-top procedure: line
366 evaluates `max(self.rot_sym, ...)` before the `len == 0` guard and
raises ValueError on the empty sequence.  The fallback does fire when at
least one axis was found with highest order below 3. -/
theorem C3_sph_top_empty_crash :
    proc_sph_top_branch [] = Except.error PyErr.valueError ∧
    proc_sph_top_branch [(zAxis, 2)] = Except.ok SphBranch.fallbackSymTop :=
  ⟨rfl, rfl⟩

/-- C10 counterexample.  With eigenvalues (0.655, 0.665, 0.68) and
tolerance 0.01 the dispatcher reaches the symmetric-top branch (the
first gap equals the tolerance exactly, so the asymmetric test fails),
yet the unique-axis loop, which demands a gap strictly below the
tolerance, assigns nothing: `unique_axis` is read unassigned. -/
theorem C10_boundary_counterexample :
    shape_dispatch (131/200) (133/200) (17/25) (1/100) = TopShape.symTop ∧
    unique_axis_index (131/200) (133/200) (17/25) (1/100) = none := by
  constructor
  · decide
  · decide

/-- C10, amended.  Whenever the dispatcher invokes the symmetric-top
procedure, at least one of the pairs tested by the asymmetric condition
differs by at most the tolerance (non-strictly); and whenever some pair
differs strictly below the tolerance, the unique-axis loop does find and
assign a unique axis.  Only at the exact-tolerance boundary can the
variable be read unassigned. -/
theorem C10_symtop_weak_pair (v1 v2 v3 eps : ℚ)
    (h : shape_dispatch v1 v2 v3 eps = TopShape.symTop) :
    (|v1 - v2| ≤ eps ∨ |v2 - v3| ≤ eps) ∧
    ((|v1 - v2| < eps ∨ |v1 - v3| < eps ∨ |v2 - v3| < eps) →
      unique_axis_index v1 v2 v3 eps ≠ none) := by
  have h3 : ¬ eig_all_diff v1 v2 v3 eps := by
    intro hd
    unfold shape_dispatch at h
    split_ifs at h
  constructor
  · rcases le_or_lt |v1 - v2| eps with hle | hgt
    · exact Or.inl hle
    · rcases le_or_lt |v2 - v3| eps with hle2 | hgt2
      · exact Or.inr hle2
      · exact absurd (show eig_all_diff v1 v2 v3 eps from ⟨hgt, hgt, hgt2⟩) h3
  · intro hstrict
    unfold unique_axis_index
    split_ifs with ha hb hc
    · simp
    · simp
    · simp
    · rcases hstrict with h' | h' | h'
      · exact absurd h' ha
      · exact absurd h' hb
      · exact absurd h' hc

/-- C10 witness: a genuine symmetric-top eigenvalue triple with a pair
strictly within tolerance does get a unique axis. -/
theorem C10_symtop_weak_pair_witness :
    unique_axis_index (33/50) (133/200) (27/40) (1/100) ≠ none :=
  (C10_symtop_weak_pair (33/50) (133/200) (27/40) (1/100) (by decide)).2
    (Or.inl (by decide))

/-- The cluster loop raises exactly when some listed cluster has average
distance below tolerance and more than one member. -/
theorem clusterLoop_err_iff (normF : Vec3 → ℚ) (mol : List Site) (t : ℚ) :
    ∀ l : List Site, isErr (clusterLoop normF mol t l) = true ↔
      ∃ r ∈ l, clusterAvg normF mol t r < t ∧ 1 < (clusterMembers normF mol t r).length := by
  intro l
  induction l with
  | nil => simp [clusterLoop, isErr]
  | cons r rest ih =>
    simp only [clusterLoop]
    by_cases hd : clusterAvg normF mol t r < t
    · simp only [if_pos hd]
      by_cases hn : 1 < (clusterMembers normF mol t r).length
      · simp only [if_pos hn]
        constructor
        · intro _
          exact ⟨r, List.mem_cons_self _ _, hd, hn⟩
        · intro _
          rfl
      · simp only [if_neg hn]
        cases hrec : clusterLoop normF mol t rest with
        | error e =>
          constructor
          · intro _
            obtain ⟨r', hr', ha, hb⟩ := ih.mp (by rw [hrec]; rfl)
            exact ⟨r', List.mem_cons_of_mem _ hr', ha, hb⟩
          · intro _
            rfl
        | ok p =>
          obtain ⟨o, groups⟩ := p
          constructor
          · intro hfalse
            exact absurd hfalse (by simp [isErr])
          · rintro ⟨r', hr', ha, hb⟩
            rcases List.mem_cons.mp hr' with hrr | hmem
            · subst hrr
              exact absurd hb hn
            · have := ih.mpr ⟨r', hmem, ha, hb⟩
              rw [hrec] at this
              exact absurd this (by simp [isErr])
    · simp only [if_neg hd]
      cases hrec : clusterLoop normF mol t rest with
      | error e =>
        constructor
        · intro _
          obtain ⟨r', hr', ha, hb⟩ := ih.mp (by rw [hrec]; rfl)
          exact ⟨r', List.mem_cons_of_mem _ hr', ha, hb⟩
        · intro _
          rfl
      | ok p =>
        obtain ⟨o, groups⟩ := p
        constructor
        · intro hfalse
          exact absurd hfalse (by simp [isErr])
        · rintro ⟨r', hr', ha, hb⟩
          rcases List.mem_cons.mp hr' with hrr | hmem
          · subst hrr
            exact absurd ha hd
          · have := ih.mpr ⟨r', hmem, ha, hb⟩
            rw [hrec] at this
            exact absurd this (by simp [isErr])

/-- C6 counterexample.  In the two-atom molecule with distances 0.1 and
0.35 from the origin exactly one atom lies within the tolerance 0.3 of
the origin, yet `cluster_sites` raises the bad-molecule error: the two
distances chain into a single cluster (gap 0.25 below tolerance) whose
stored `np.mean` over the flattened `[distance, 0]` rows is
0.45 / 4 = 0.1125, below the tolerance, with two members.  The claimed
"at most one atom within tolerance implies normal return" is false. -/
theorem C6_counterexample :
    isErr (cluster_sites normFromOrigin mol6 (3/10)) = true ∧
    (mol6.filter fun s => decide (normFromOrigin s.coords < 3/10)).length = 1 ∧
    (mol6.all fun s =>
      decide ((normFromOrigin s.coords) ^ 2 = normSq s.coords ∧
        0 ≤ normFromOrigin s.coords)) = true := by
  refine ⟨by decide, by decide, by decide⟩

/-- C6, amended.  `cluster_sites` raises the fatal bad-molecule error
exactly when the single-linkage distance clustering produces a cluster
of more than one atom whose stored average - `np.mean` over the
flattened `[distance, 0]` rows, i.e. half the mean distance from the
origin - is below the tolerance; equivalently, whose mean distance from
the origin is below twice the tolerance.  Otherwise it returns normally.
(A single atom within tolerance, or none at all, can trigger the error
when chained with slightly farther atoms, and several atoms within
tolerance need not trigger it when their cluster also chains far atoms,
so membership within tolerance of the origin is neither necessary nor
sufficient.) -/
theorem C6_origin_error_iff (normF : Vec3 → ℚ) (mol : List Site) (t : ℚ) :
    isErr (cluster_sites normF mol t) = true ↔
      ∃ r ∈ clusterReps normF mol t,
        clusterAvg normF mol t r < t ∧ 1 < (clusterMembers normF mol t r).length :=
  clusterLoop_err_iff normF mol t (clusterReps normF mol t)

/-- C7 counterexample.  For the symmetric diatomic along z with the
reference axis (1,0,1): the pair difference (0,0,-2) has projection -2
onto the axis, whose magnitude 2 is far above the tolerance 0.3, yet the
signed source test of dot against tol accepts it and the scan reports a "v"
mirror; under the claimed magnitude test the pair is no candidate and no
mirror at all is found. -/
theorem C7_counterexample :
    find_mirror mol7 a7 [] (3/10) = "v" ∧
    find_mirror_absproj mol7 a7 [] (3/10) = "" ∧
    ¬(|dot (vsub (⟨0, 0, -1⟩ : Vec3) ⟨0, 0, 1⟩) a7| < 3/10) := by
  refine ⟨by decide, by decide, by decide⟩

/-- C7, amended.  In the pairwise scan a same-species pair is taken as a
candidate exactly when the SIGNED projection of its coordinate
difference onto the reference axis is below the tolerance - there is no
absolute value, so every pair with large negative projection also
qualifies.  Formally: when the axis itself is not a valid mirror normal,
the scan reports a mirror exactly when some pair satisfies the signed
condition together with species equality and validity of the reflection
about the difference. -/
theorem C7_scan_condition (mol : List Site) (axis : Vec3) (rot_sym : List (Vec3 × ℕ))
    (t : ℚ) (hax : is_valid_op (reflectionOp axis) mol t = false) :
    (find_mirror mol axis rot_sym t ≠ "" ↔
      ∃ p ∈ combPairs mol, mirrorPairHit mol axis t p = true) := by
  rw [find_mirror, if_neg (by simp [hax])]
  cases hscan : (combPairs mol).find? (mirrorPairHit mol axis t) with
  | none =>
    constructor
    · intro hne
      exact absurd rfl hne
    · rintro ⟨p, hp, hhit⟩
      exact absurd hhit (List.find?_eq_none.mp hscan p hp)
  | some p =>
    constructor
    · intro _
      exact ⟨p, List.mem_of_find?_eq_some hscan, List.find?_some hscan⟩
    · intro _
      dsimp only
      split_ifs <;> simp

/-- C7 witness: on the concrete diatomic with axis (1,0,1) the axis
reflection is invalid and the equivalence is realized - the scan finds a
mirror and indeed some pair satisfies the signed condition. -/
theorem C7_scan_condition_witness :
    find_mirror mol7 a7 [] (3/10) ≠ "" ↔
      ∃ p ∈ combPairs mol7, mirrorPairHit mol7 a7 (3/10) p = true :=
  C7_scan_condition mol7 a7 [] (3/10) (by decide)

/-- C8 counterexample.  The 90-degree rotation about z is a valid
operation for the five-atom molecule `mol8` at tolerance 0.3, yet the
induced index mapping sends both atom 0 and atom 1 to atom 2: it is not
injective, hence not a permutation of the atoms. -/
theorem C8_counterexample :
    is_valid_op R90z4 mol8 (3/10) = true ∧
    mapped_index R90z4 mol8 (3/10) 0 = some 2 ∧
    mapped_index R90z4 mol8 (3/10) 1 = some 2 := by
  refine ⟨by decide, by decide, by decide⟩

/-- C8, amended.  If an operation is valid for a molecule then the
transformed coordinate of every atom matches exactly one atom index, and the
matched atom has the same species: the induced mapping is a well-defined
species-preserving self-map of the atom indices.  (It need not be
injective, so it is not in general a permutation.) -/
theorem C8_unique_species_match (symmop : Mat4) (mol : List Site) (tol : ℚ)
    (h : is_valid_op symmop mol tol = true) :
    ∀ (i : ℕ) (s : Site), mol[i]? = some s →
      ∃ j s2,
        find_in_coord_list (mol.map (·.coords)) (operate symmop s.coords) tol = [j] ∧
        mol[j]? = some s2 ∧ s2.specie = s.specie := by
  intro i s hi
  have hs : s ∈ mol := List.getElem?_mem hi
  simp only [is_valid_op, List.all_eq_true] at h
  have hsite := h s hs
  cases hfind : find_in_coord_list (mol.map (·.coords)) (operate symmop s.coords) tol with
  | nil => rw [hfind] at hsite; cases hsite
  | cons j rest =>
    cases rest with
    | cons k r2 => rw [hfind] at hsite; cases hsite
    | nil =>
      rw [hfind] at hsite
      dsimp only at hsite
      cases hj : mol[j]? with
      | none => rw [hj] at hsite; cases hsite
      | some s2 =>
        rw [hj] at hsite
        exact ⟨j, s2, rfl, hj, by simpa using hsite⟩

/-- C8 witness: applying the amended theorem to the valid 90-degree
rotation on `mol8` at atom 0 yields the unique species-matched image. -/
theorem C8_unique_species_match_witness :
    ∃ j s2,
      find_in_coord_list (mol8.map (·.coords))
        (operate R90z4 (Site.mk 1 1 ⟨29/100, -10, 0⟩).coords) (3/10) = [j] ∧
      mol8[j]? = some s2 ∧ s2.specie = (Site.mk 1 1 (⟨29/100, -10, 0⟩ : Vec3)).specie :=
  C8_unique_species_match R90z4 mol8 (3/10) (by decide) 0 ⟨1, 1, ⟨29/100, -10, 0⟩⟩
    (by decide)

/-- Unpacking of the separation hypothesis at a pair of indices. -/
theorem separatedB_spec {mol : List Site} {t : ℚ} (h : separatedB mol t = true) :
    ∀ (i j : ℕ) (s1 s2 : Site), i ≠ j → mol[i]? = some s1 → mol[j]? = some s2 →
      2 * t ≤ chebDist s1.coords s2.coords := by
  intro i j s1 s2 hij h1 h2
  simp only [separatedB, List.all_eq_true, List.mem_range] at h
  have hi : i < mol.length := (List.getElem?_eq_some_iff.mp h1).1
  have hj : j < mol.length := (List.getElem?_eq_some_iff.mp h2).1
  have hb := h i hi j hj
  rw [h1, h2] at hb
  dsimp only at hb
  simp only [Bool.or_eq_true, decide_eq_true_eq] at hb
  rcases hb with hc | hc
  · exact absurd hc hij
  · exact hc

/-- What a coordinate hit means, unfolded. -/
theorem coordHit_true_iff {coords : List Vec3} {c : Vec3} {atol : ℚ} {i : ℕ} :
    coordHit coords c atol i = true ↔
      ∃ p, coords[i]? = some p ∧ |p.x - c.x| < atol ∧ |p.y - c.y| < atol ∧
        |p.z - c.z| < atol := by
  rw [coordHit]
  cases hp : coords[i]? with
  | none => simp
  | some p =>
    simp only [Bool.and_eq_true, decide_eq_true_eq]
    constructor
    · rintro ⟨⟨ha, hb⟩, hc⟩
      exact ⟨p, rfl, ha, hb, hc⟩
    · rintro ⟨q, hq, ha, hb, hc⟩
      cases Option.some.inj hq
      exact ⟨⟨ha, hb⟩, hc⟩

/-- A unique match at the tighter tolerance stays the unique match at the
looser tolerance when the atoms are pairwise separated by more than twice
the looser tolerance. -/
theorem find_singleton_mono {mol : List Site} {c : Vec3} {t1 t2 : ℚ} {j : ℕ}
    (ht : t1 ≤ t2) (hsep : separatedB mol t2 = true)
    (h : find_in_coord_list (mol.map (·.coords)) c t1 = [j]) :
    find_in_coord_list (mol.map (·.coords)) c t2 = [j] := by
  rw [find_in_coord_list] at h ⊢
  rw [List.length_map] at h ⊢
  obtain ⟨hj, hpj, hother⟩ := filter_range_singleton.mp h
  obtain ⟨p, hp, hp1, hp2, hp3⟩ := coordHit_true_iff.mp hpj
  refine filter_range_singleton.mpr ⟨hj, ?_, ?_⟩
  · exact coordHit_true_iff.mpr
      ⟨p, hp, lt_of_lt_of_le hp1 ht, lt_of_lt_of_le hp2 ht, lt_of_lt_of_le hp3 ht⟩
  · intro k hk hkj
    by_contra hcon
    rw [Bool.not_eq_false] at hcon
    obtain ⟨q, hq, hq1, hq2, hq3⟩ := coordHit_true_iff.mp hcon
    rw [List.getElem?_map] at hp hq
    cases hsj : mol[j]? with
    | none => rw [hsj] at hp; cases hp
    | some s1 =>
      cases hsk : mol[k]? with
      | none => rw [hsk] at hq; cases hq
      | some s2 =>
        rw [hsj] at hp
        rw [hsk] at hq
        have hps : s1.coords = p := Option.some.inj hp
        have hqs : s2.coords = q := Option.some.inj hq
        have hsep2 := separatedB_spec hsep j k s1 s2 (fun he => hkj he.symm) hsj hsk
        rw [hps, hqs] at hsep2
        have hx : |p.x - q.x| < 2 * t2 := by
          have := abs_sub_le p.x c.x q.x
          have h2 : |q.x - c.x| = |c.x - q.x| := abs_sub_comm _ _
          have hp1' : |p.x - c.x| < t2 := lt_of_lt_of_le hp1 ht
          linarith [hq1, abs_sub_comm q.x c.x]
        have hy : |p.y - q.y| < 2 * t2 := by
          have := abs_sub_le p.y c.y q.y
          have hp2' : |p.y - c.y| < t2 := lt_of_lt_of_le hp2 ht
          linarith [hq2, abs_sub_comm q.y c.y]
        have hz : |p.z - q.z| < 2 * t2 := by
          have := abs_sub_le p.z c.z q.z
          have hp3' : |p.z - c.z| < t2 := lt_of_lt_of_le hp3 ht
          linarith [hq3, abs_sub_comm q.z c.z]
        have hcheb : chebDist p q < 2 * t2 := by
          rw [chebDist]
          exact max_lt hx (max_lt hy hz)
        exact absurd hsep2 (not_le.mpr hcheb)

/-- Validity of an operation is monotone in the tolerance on molecules
whose atoms are pairwise separated by more than twice the looser
tolerance. -/
theorem is_valid_op_mono {symmop : Mat4} {mol : List Site} {t1 t2 : ℚ}
    (ht : t1 ≤ t2) (hsep : separatedB mol t2 = true)
    (h : is_valid_op symmop mol t1 = true) : is_valid_op symmop mol t2 = true := by
  simp only [is_valid_op, List.all_eq_true] at h ⊢
  intro site hsite
  have h1 := h site hsite
  cases hfind : find_in_coord_list (mol.map (·.coords)) (operate symmop site.coords) t1 with
  | nil => rw [hfind] at h1; cases h1
  | cons j rest =>
    cases rest with
    | cons k r2 => rw [hfind] at h1; cases h1
    | nil =>
      rw [hfind] at h1
      rw [find_singleton_mono ht hsep hfind]
      exact h1

/-- The countdown search never returns more than the larger of its
starting index and 1. -/
theorem rot_sym_search_le (rotOp : Vec3 → ℕ → Mat4) (mol : List Site) (axis : Vec3)
    (t : ℚ) (m : ℕ) : ∀ k, rot_sym_search rotOp mol axis t m k ≤ max k 1 := by
  intro k
  induction k with
  | zero => simp [rot_sym_search]
  | succ i ih =>
    rw [rot_sym_search]
    split
    · exact le_max_left _ _
    · exact le_trans ih (max_le_max (Nat.le_succ i) le_rfl)

/-- Under the separation hypothesis the countdown search is monotone in
the validity tolerance: every order accepted at the tighter tolerance is
still accepted at the looser one, so the first accepted order can only
move up. -/
theorem rot_sym_search_mono (rotOp : Vec3 → ℕ → Mat4) (mol : List Site) (axis : Vec3)
    {t1 t2 : ℚ} (m : ℕ) (ht : t1 ≤ t2) (hsep : separatedB mol t2 = true) :
    ∀ k, rot_sym_search rotOp mol axis t1 m k ≤ rot_sym_search rotOp mol axis t2 m k := by
  intro k
  induction k with
  | zero => simp [rot_sym_search]
  | succ i ih =>
    rw [rot_sym_search, rot_sym_search]
    by_cases hc1 : (decide (m % (i + 1) = 0) && is_valid_op (rotOp axis (i + 1)) mol t1)
        = true
    · have hc2 : (decide (m % (i + 1) = 0) && is_valid_op (rotOp axis (i + 1)) mol t2)
          = true := by
        rw [Bool.and_eq_true] at hc1 ⊢
        exact ⟨hc1.1, is_valid_op_mono ht hsep hc1.2⟩
      rw [if_pos hc1, if_pos hc2]
    · rw [if_neg hc1]
      by_cases hc2 : (decide (m % (i + 1) = 0) && is_valid_op (rotOp axis (i + 1)) mol t2)
          = true
      · rw [if_pos hc2]
        refine le_trans (rot_sym_search_le rotOp mol axis t1 m i) ?_
        exact max_le (Nat.le_succ i) (Nat.succ_le_succ (Nat.zero_le i))
      · rw [if_neg hc2]
        exact ih

/-- C9 counterexample.  For the four-atom ring `mol4` about the z axis,
the rotation-order search returns order 2 at tolerance 0.3 but only
order 1 at the looser tolerance 1.5: at the looser tolerance each
180-degree image matches two atoms at once, `find_in_coord_list` stops
returning a unique index, and validity fails, so tightening the
tolerance INCREASED the found order.  (The last conjunct checks that the
norm model is exact on these sites.) -/
theorem C9_counterexample :
    (3 : ℚ)/10 ≤ 3/2 ∧
    check_rot_sym rotZ normFromOrigin mol4 zAxis (3/10) = Except.ok 2 ∧
    check_rot_sym rotZ normFromOrigin mol4 zAxis (3/2) = Except.ok 1 ∧
    (mol4.all fun s =>
      decide ((normFromOrigin s.coords) ^ 2 = normSq s.coords ∧
        0 ≤ normFromOrigin s.coords)) = true := by
  refine ⟨by norm_num, by decide, by decide, by decide⟩

/-- C9, amended.  Tolerance monotonicity of the rotation-order search
holds under two extra hypotheses that the claim omits: the atoms must be
pairwise separated by more than twice the looser tolerance (so that a
transformed coordinate can match at most one atom at either tolerance),
and the minimal off-axis set must be the same at both tolerances (the
clustering itself depends on the tolerance).  Then the order found at
the tighter tolerance is at most the order found at the looser one. -/
theorem C9_monotone_under_separation (rotOp : Vec3 → ℕ → Mat4) (normF : Vec3 → ℚ)
    (mol : List Site) (axis : Vec3) (t1 t2 : ℚ) (S : List Site)
    (ht : t1 ≤ t2) (hsep : separatedB mol t2 = true)
    (h1 : get_smallest_set_not_on_axis normF mol axis t1 = Except.ok S)
    (h2 : get_smallest_set_not_on_axis normF mol axis t2 = Except.ok S) :
    ∃ o1 o2, check_rot_sym rotOp normF mol axis t1 = Except.ok o1 ∧
      check_rot_sym rotOp normF mol axis t2 = Except.ok o2 ∧ o1 ≤ o2 := by
  refine ⟨rot_sym_search rotOp mol axis t1 S.length S.length,
    rot_sym_search rotOp mol axis t2 S.length S.length, ?_, ?_, ?_⟩
  · rw [check_rot_sym, h1]
  · rw [check_rot_sym, h2]
  · exact rot_sym_search_mono rotOp mol axis S.length ht hsep S.length

/-- C9 witness: on `mol4` with tolerances 0.1 and 0.3 the separation and
equal-minimal-set hypotheses hold and the found orders are 2 and 2. -/
theorem C9_monotone_under_separation_witness :
    ∃ o1 o2, check_rot_sym rotZ normFromOrigin mol4 zAxis (1/10) = Except.ok o1 ∧
      check_rot_sym rotZ normFromOrigin mol4 zAxis (3/10) = Except.ok o2 ∧ o1 ≤ o2 :=
  C9_monotone_under_separation rotZ normFromOrigin mol4 zAxis (1/10) (3/10) mol4
    (by norm_num) (by decide) (by decide) (by decide)
